import Mathlib

/-!
# Verification of the XAD automatic-differentiation engine specification

This development embeds the AD engine exposed by the `xad_autodiff` Python
bindings: a reverse-mode (adjoint) tape recorder/evaluator, the adjoint and
forward variable types, and the Python-side glue functions (`value`,
`derivative`, `registerInputs`/`registerOutputs`, hashing).

The compiled C++ extension module `_xad_autodiff` (the tape and the two
`Real` types) is not part of the Python sources; following the specification
(§3 Data model, §4.2 Adjoint tape, §4.3 Adjoint variable handle, §7 Error
handling), it is modelled here explicitly.  Values carried by variables and
tape entries are modelled as exact rationals (`ℚ`); every scenario proved
below only involves arithmetic that is exact in IEEE-754 double precision,
so the rational model is faithful for the observables of those scenarios.
The elementary-function derivative table (§4.4) is modelled over `ℝ`.
-/

namespace XadSpec

/-- The exception taxonomy of §7: all specializations of one common base
condition (`XadException`), plus the Python-level `TypeError` used by the
free function `derivative` for non-AD inputs. -/
inductive XadErr where
  | tapeAlreadyActive
  | noTape
  | outOfRange
  | derivativesNotInitialized
deriving DecidableEq, Repr

/-- Modelled from the spec: a tape entry (§3) — one elementary operation
record holding the input slot(s) and the local partial derivative(s)
evaluated at the recorded point.  The output slot of an entry is its own
append position, so that slot indices and tape positions coincide (the spec
treats a position as "a prefix length of the tape (both the entry log and,
implicitly, the slot table)").  A `registerInput` call allocates a slot by
appending an `inp` entry. -/
inductive Entry (α : Type) where
  | inp : Entry α
  | unary (i : ℕ) (p : α) : Entry α
  | binary (i j : ℕ) (p q : α) : Entry α
deriving DecidableEq, Repr

/-- Modelled from the spec: an adjoint variable (§3, §4.3) — a value plus an
optional slot; unregistered (slot `none`) until registered with a tape. -/
structure AReal (α : Type) where
  val : α
  slot : Option ℕ
deriving DecidableEq, Repr

/-- Modelled from the spec: the tape object (§3) — the append-only entry
log, the slot-to-derivative storage array, the replay baseline established
by `newRecording`, and the list of slots marked as outputs. -/
structure Tape (α : Type) where
  entries : List (Entry α)
  deriv : List α
  recStart : ℕ
  outputs : List (Option ℕ)
deriving DecidableEq, Repr

namespace Tape

variable {α : Type} [CommRing α]

/-- A freshly created tape: empty log, empty storage, baseline 0. -/
def empty : Tape α := ⟨[], [], 0, []⟩

/-- `getPosition()` returns the current tape length (§4.2). -/
def getPosition (t : Tape α) : ℕ := t.entries.length

/-- Modelled from the spec: `registerInput` (§4.2) allocates a fresh slot,
zero-initializes its derivative storage and binds the variable to this
tape.  Returns the updated tape and the (mutated-in-place in Python)
variable now carrying its slot. -/
def registerInput (t : Tape α) (x : AReal α) : Tape α × AReal α :=
  (⟨t.entries ++ [.inp], t.deriv ++ [0], t.recStart, t.outputs⟩,
   ⟨x.val, some t.entries.length⟩)

/-- Modelled from the spec: `newRecording` (§4.2) marks the current position
as the replay baseline used by `computeAdjoints()`. -/
def newRecording (t : Tape α) : Tape α :=
  { t with recStart := t.entries.length }

/-- Modelled from the spec: appending one unary operation record (§4.2):
input slot `i`, local partial `p`, fresh output slot; the produced variable
is bound to the fresh slot and carries the operation's value. -/
def recordUnary (t : Tape α) (i : ℕ) (p : α) (v : α) : Tape α × AReal α :=
  (⟨t.entries ++ [.unary i p], t.deriv ++ [0], t.recStart, t.outputs⟩,
   ⟨v, some t.entries.length⟩)

/-- Modelled from the spec: appending one binary operation record (§4.2)
with input slots `i`, `j` and local partials `p`, `q`. -/
def recordBinary (t : Tape α) (i j : ℕ) (p q : α) (v : α) : Tape α × AReal α :=
  (⟨t.entries ++ [.binary i j p q], t.deriv ++ [0], t.recStart, t.outputs⟩,
   ⟨v, some t.entries.length⟩)

/-- Modelled from the spec: `registerOutput` (§4.2) marks a variable as a
seeding point; it does not allocate a new slot, it reuses the variable's
existing slot. -/
def registerOutput (t : Tape α) (x : AReal α) : Tape α :=
  { t with outputs := t.outputs ++ [x.slot] }

/-- Modelled from the spec: multiplication of a registered adjoint variable
by a plain numeric constant (§4.2) appends one entry with local partial
`∂(c·x)/∂x = c`; with no slot the operation behaves as plain value
arithmetic without recording. -/
def constMul (t : Tape α) (c : α) (x : AReal α) : Tape α × AReal α :=
  match x.slot with
  | some s => t.recordUnary s c (c * x.val)
  | none => (t, ⟨c * x.val, none⟩)

/-- Modelled from the spec: multiplication of two adjoint variables (§4.2);
the local partials are `∂(x·y)/∂x = y` and `∂(x·y)/∂y = x`, evaluated at
the recorded point. -/
def mulAA (t : Tape α) (x y : AReal α) : Tape α × AReal α :=
  match x.slot, y.slot with
  | some i, some j => t.recordBinary i j y.val x.val (x.val * y.val)
  | some i, none => t.recordUnary i y.val (x.val * y.val)
  | none, some j => t.recordUnary j x.val (x.val * y.val)
  | none, none => (t, ⟨x.val * y.val, none⟩)

/-- Modelled from the spec: addition of two adjoint variables (§4.2); both
local partials are 1. -/
def addAA (t : Tape α) (x y : AReal α) : Tape α × AReal α :=
  match x.slot, y.slot with
  | some i, some j => t.recordBinary i j 1 1 (x.val + y.val)
  | some i, none => t.recordUnary i 1 (x.val + y.val)
  | none, some j => t.recordUnary j 1 (x.val + y.val)
  | none, none => (t, ⟨x.val + y.val, none⟩)

/-- Modelled from the spec: `setDerivative` by slot (§4.2, §7) — seeds the
adjoint of a slot, failing with `OutOfRange` when the slot index is beyond
the current bound of the derivative storage. -/
def setDerivSlot (t : Tape α) (s : ℕ) (v : α) : Except XadErr (Tape α) :=
  if s < t.deriv.length then .ok { t with deriv := t.deriv.set s v }
  else .error .outOfRange

/-- Modelled from the spec: `setDerivative` with a variable argument — uses
the variable's slot; an unregistered variable carries an invalid slot, so
the lookup fails with `OutOfRange` (§7). -/
def setDerivVar (t : Tape α) (x : AReal α) (v : α) : Except XadErr (Tape α) :=
  match x.slot with
  | some s => t.setDerivSlot s v
  | none => .error .outOfRange

/-- Modelled from the spec: `derivative`/`getDerivative` by slot (§4.2) —
reads the accumulated adjoint, failing with `OutOfRange` beyond the current
slot-table bound (§7). -/
def derivSlot (t : Tape α) (s : ℕ) : Except XadErr α :=
  if s < t.deriv.length then .ok (t.deriv.getD s 0)
  else .error .outOfRange

/-- Modelled from the spec: derivative query for a variable — an
unregistered variable's slot is out of range (§7 `OutOfRange` "covers both
never-allocated slots and slots invalidated"). -/
def derivVar (t : Tape α) (x : AReal α) : Except XadErr α :=
  match x.slot with
  | some s => t.derivSlot s
  | none => .error .outOfRange

/-- Derivative storage lookup with the zero default used during reverse
accumulation. -/
def dget (d : List α) (i : ℕ) : α := d.getD i 0

/-- Modelled from the spec: processing one entry during the reverse pass
(§4.2): `adjoint[input] += localPartial * adjoint[output]`, where the
output slot of the entry at index `outIdx` is `outIdx` itself; input
entries propagate nothing. -/
def propagate (e : Entry α) (outIdx : ℕ) (d : List α) : List α :=
  match e with
  | .inp => d
  | .unary i p => d.set i (dget d i + p * dget d outIdx)
  | .binary i j p q =>
      let d1 := d.set i (dget d i + p * dget d outIdx)
      d1.set j (dget d1 j + q * dget d1 outIdx)

/-- Modelled from the spec: `computeAdjointsTo(position)` (§4.2) —
reverse-traverses the entries from the current tape end back down to (and
excluding) `position`, in strict reverse append order, accumulating local
partials into the input slots' derivative storage. -/
def computeAdjointsTo (t : Tape α) (pos : ℕ) : Tape α :=
  let idxs := ((List.range t.entries.length).drop pos).reverse
  let d := idxs.foldl (fun d idx => propagate (t.entries.getD idx .inp) idx d) t.deriv
  { t with deriv := d }

/-- Modelled from the spec: `computeAdjoints()` (§4.2) — the same reverse
traversal, terminating at the baseline established by the most recent
`newRecording()`.  (The `DerivativesNotInitialized` guard is not modelled:
every scenario considered here seeds a derivative first.) -/
def computeAdjoints (t : Tape α) : Tape α := t.computeAdjointsTo t.recStart

/-- Modelled from the spec: `resetTo(position)` (§4.2) truncates the entry
log and the slot table to length `position`. -/
def resetTo (t : Tape α) (pos : ℕ) : Tape α :=
  ⟨t.entries.take pos, t.deriv.take pos, t.recStart, t.outputs⟩

/-- Modelled from the spec: `clearDerivatives()` (§4.2) zeroes all
derivative storage without touching entries or slots. -/
def clearDerivatives (t : Tape α) : Tape α :=
  { t with deriv := t.deriv.map (fun _ => 0) }

/-- Modelled from the spec: `clearDerivativesAfter(position)` (§4.2, §8) —
clears the derivative storage of every slot allocated at or after
`position`; those slots subsequently read as `OutOfRange` while slots
before `position` remain valid and unaffected. -/
def clearDerivativesAfter (t : Tape α) (pos : ℕ) : Tape α :=
  { t with deriv := t.deriv.take pos }

end Tape

/-- Modelled from the spec: the thread-local active-tape registry (§2, §5),
holding at most one active tape (identified by an id) per thread. -/
def ActiveCtx : Type := Option ℕ

/-- Modelled from the spec: `activate()` (§4.2) — fails with
`TapeAlreadyActive` if another tape is already the active tape for this
thread, or if this tape is already active; otherwise the tape becomes the
thread's active tape. -/
def activateTape (active : Option ℕ) (tid : ℕ) : Except XadErr (Option ℕ) :=
  match active with
  | some _ => .error .tapeAlreadyActive
  | none => .ok (some tid)

/-- Modelled from the spec: `Real.setDerivative` (§4.3) — the
derivative-convenience accessor delegates to the currently active tape;
calling it with no active tape for the thread fails with
`NoTapeException` (§7). -/
def varSetDeriv (ctx : Option (Tape ℚ)) (x : AReal ℚ) (v : ℚ) :
    Except XadErr (Tape ℚ) :=
  match ctx with
  | none => .error .noTape
  | some t => t.setDerivVar x v

/-- Modelled from the spec: `Real.getDerivative` (§4.3) for an adjoint
variable — delegates to the currently active tape, failing with
`NoTapeException` when none is active. -/
def varGetDeriv (ctx : Option (Tape ℚ)) (x : AReal ℚ) : Except XadErr ℚ :=
  match ctx with
  | none => .error .noTape
  | some t => t.derivVar x

/-!
## Scenario of claim C1: the loop-replay law

`test_reset_to_and_compute_adjoints_to_usage`: one input `i = 2.0`,
baseline `pos` after `newRecording()`, then nine iterations of
`v = p * i; registerOutput(v); v.setDerivative(1.0);
computeAdjointsTo(pos); read value(v), derivative(i); resetTo(pos);
clearDerivatives()`.  All arithmetic involved (`p * 2.0`, seeding with
1.0, one accumulation `0 + p * 1`) is exact in double precision, so the
rational model is exact here. -/

/-- One iteration of the C1 loop body, threading the tape and the two
accumulated observation lists through the `Except` monad. -/
def c1Step (pos : ℕ) (i : AReal ℚ) (acc : Tape ℚ × List ℚ × List ℚ) (p : ℚ) :
    Except XadErr (Tape ℚ × List ℚ × List ℚ) := do
  let (t, vals, ders) := acc
  let (t1, v) := t.constMul p i
  let t2 := t1.registerOutput v
  let t3 ← t2.setDerivVar v 1
  let t4 := t3.computeAdjointsTo pos
  let dv ← t4.derivVar i
  let t5 := (t4.resetTo pos).clearDerivatives
  pure (t5, vals ++ [v.val], ders ++ [dv])

/-- The full C1 scenario: the value sequence and derivative sequence
observed over `p = 1..9`. -/
def c1Run : Except XadErr (List ℚ × List ℚ) := do
  let (t1, i) := (Tape.empty (α := ℚ)).registerInput ⟨2, none⟩
  let t2 := t1.newRecording
  let pos := t2.getPosition
  let (_, vals, ders) ← [(1 : ℚ), 2, 3, 4, 5, 6, 7, 8, 9].foldlM
      (c1Step pos i) (t2, [], [])
  pure (vals, ders)

/-!
## Scenario of claim C2: `clearDerivativesAfter`

`test_clear_derivative_after`: `x1` registered, `x2 = 1.2 * x1`,
checkpoint `pos`, `x3 = 1.4 * x2 * x1`, `x4 = x2 + x3`, register `x4`
as output, seed all four derivatives with 1.0, call
`clearDerivativesAfter(pos)` and query the four derivatives.  The
observables are only the seeded value 1.0 and `OutOfRange` errors (the
recorded partials involving 1.2 and 1.4 are never consumed), so the
rational model is exact here as well. -/

/-- The C2 scenario, returning the four derivative queries performed by
the test after `clearDerivativesAfter(pos)`. -/
def c2Run : Except XadErr
    (Except XadErr ℚ × Except XadErr ℚ × Except XadErr ℚ × Except XadErr ℚ) := do
  let (t1, x1) := (Tape.empty (α := ℚ)).registerInput ⟨1, none⟩
  let (t2, x2) := t1.constMul (6/5) x1
  let pos := t2.getPosition
  let (t3, tmp) := t2.constMul (7/5) x2
  let (t4, x3) := t3.mulAA tmp x1
  let (t5, x4) := t4.addAA x2 x3
  let t6 := t5.registerOutput x4
  let t7 ← t6.setDerivVar x4 1
  let t8 ← t7.setDerivVar x3 1
  let t9 ← t8.setDerivVar x2 1
  let t10 ← t9.setDerivVar x1 1
  let t11 := t10.clearDerivativesAfter pos
  pure (t11.derivVar x1, t11.derivVar x2, t11.derivVar x3, t11.derivVar x4)

/-- C1: For a tape with one registered input `i` with value 2.0 and a
recording baseline `pos` taken after `newRecording()`, iterating for `p`
from 1 to 9 the sequence compute `v = p * i`, `registerOutput(v)`, set
`v`'s derivative to 1.0, `computeAdjointsTo(pos)`, read `value(v)` and
`derivative(i)`, then `resetTo(pos)` and `clearDerivatives()`, yields the
value sequence `[2.0, 4.0, ..., 18.0]` and the derivative sequence
`[1.0, 2.0, ..., 9.0]`. -/
theorem c1_loop_replay :
    c1Run = .ok ([2, 4, 6, 8, 10, 12, 14, 16, 18], [1, 2, 3, 4, 5, 6, 7, 8, 9]) := by
  norm_num [c1Run, c1Step, Tape.empty, Tape.registerInput, Tape.constMul, Tape.newRecording,
    Tape.registerOutput, Tape.setDerivVar, Tape.setDerivSlot, Tape.computeAdjointsTo,
    Tape.resetTo, Tape.clearDerivatives, Tape.propagate, Tape.dget,
    Tape.derivVar, Tape.derivSlot, Tape.recordUnary, Tape.getPosition,
    Except.bind, Except.map, bind, Functor.map, pure, Except.pure, List.foldlM,
    List.range_succ, List.range_zero]

/-- C2: On an active tape, after registering input `x1`, computing
`x2 = 1.2 * x1`, recording checkpoint `pos`, computing `x3 = 1.4 * x2 * x1`
and `x4 = x2 + x3`, registering `x4` as output, setting the derivative of
all four variables to 1.0, and calling `clearDerivativesAfter(pos)`:
`derivative(x1)` returns 1.0, `derivative(x2)` returns 1.0, and querying
`derivative(x3)` or `derivative(x4)` raises `OutOfRange`. -/
theorem c2_clear_derivatives_after :
    c2Run = .ok (.ok 1, .ok 1, .error .outOfRange, .error .outOfRange) := by
  norm_num [c2Run, Tape.empty, Tape.registerInput, Tape.constMul, Tape.mulAA, Tape.addAA,
    Tape.registerOutput, Tape.setDerivVar, Tape.setDerivSlot, Tape.clearDerivativesAfter,
    Tape.derivVar, Tape.derivSlot, Tape.recordUnary, Tape.recordBinary, Tape.getPosition,
    Except.bind, Except.map, bind, Functor.map, pure, Except.pure]

/-!
## The Python-side glue (from `src/bindings/python/xad_autodiff/`)

`registerInputs`/`registerOutputs` (adj_1st/__init__.py), the free
functions `value` and `derivative` (__init__.py), and `__hash__`
(adj_1st and fwd_1st __init__.py).  These are genuine Python source in
the repository, embedded directly. -/

/-- `Tape.registerInputs` from adj_1st/__init__.py: a `for` loop calling
`self.registerInput(input)` for each element, threading the tape state and
collecting each updated (slot-assigned) variable. -/
def Tape.registerInputsLoop {α : Type} [CommRing α] (t : Tape α)
    (xs : List (AReal α)) : Tape α × List (AReal α) :=
  xs.foldl (fun acc x =>
    let r := acc.1.registerInput x
    (r.1, acc.2 ++ [r.2])) (t, [])

/-- The sequence of individual `registerInput(v)` calls, one per element in
order — the right-hand side of claim C9. -/
def registerInputSeq {α : Type} [CommRing α] :
    Tape α → List (AReal α) → Tape α × List (AReal α)
  | t, [] => (t, [])
  | t, x :: xs =>
    let r := t.registerInput x
    let s := registerInputSeq r.1 xs
    (s.1, r.2 :: s.2)

/-- `Tape.registerOutputs` from adj_1st/__init__.py: a `for` loop calling
`self.registerOutput(output)` for each element. -/
def Tape.registerOutputsLoop {α : Type} [CommRing α] (t : Tape α)
    (xs : List (AReal α)) : Tape α :=
  xs.foldl (fun t x => t.registerOutput x) t

/-- The sequence of individual `registerOutput(v)` calls, one per element
in order. -/
def registerOutputSeq {α : Type} [CommRing α] :
    Tape α → List (AReal α) → Tape α
  | t, [] => t
  | t, x :: xs => registerOutputSeq (t.registerOutput x) xs

/-- Modelled from the spec: the forward variable (§3, §4.1) — a value
paired with a derivative, fully self-contained. -/
structure FReal where
  val : ℚ
  der : ℚ
deriving DecidableEq, Repr

/-- `__hash__` for the adjoint `Real` (adj_1st/__init__.py): returns
`hash(x.value)`, for any Python hash function on floats. -/
def hashAdj (h : ℚ → ℤ) (x : AReal ℚ) : ℤ := h x.val

/-- `__hash__` for the forward `Real` (fwd_1st/__init__.py): returns
`hash(x.value)`. -/
def hashFwd (h : ℚ → ℤ) (x : FReal) : ℤ := h x.val

/-- A Python value at the boundary of the free functions `value` and
`derivative`: an adjoint-mode `Real`, a forward-mode `Real`, or a plain
(non-AD) object such as a float, an int or a string. -/
inductive PyObj where
  | adjR (x : AReal ℚ)
  | fwdR (x : FReal)
  | pyFloat (q : ℚ)
  | pyInt (n : ℤ)
  | pyStr (s : String)
deriving DecidableEq, Repr

/-- An exception escaping the free function `derivative`: either an engine
exception propagated from `getDerivative`, or the Python `TypeError`
raised for non-AD inputs. -/
inductive PyErr where
  | xadErr (e : XadErr)
  | typeErr
deriving DecidableEq, Repr

/-- The free function `value` (xad_autodiff/__init__.py, lines 34-46): if
`x` is an `adj_1st.Real` or `fwd_1st.Real` it returns `x.getValue()`,
otherwise it returns `x` itself. -/
def valueFn : PyObj → PyObj
  | .adjR x => .pyFloat x.val
  | .fwdR x => .pyFloat x.val
  | o => o

/-- The free function `derivative` (xad_autodiff/__init__.py, lines
49-61): if `x` is an `adj_1st.Real` or `fwd_1st.Real` it returns
`x.getDerivative()` (for an adjoint variable this delegates to the active
tape and propagates its exceptions), otherwise it raises `TypeError`. -/
def derivativeFn (ctx : Option (Tape ℚ)) : PyObj → Except PyErr ℚ
  | .adjR x => (varGetDeriv ctx x).mapError .xadErr
  | .fwdR x => .ok x.der
  | _ => .error .typeErr

/-!
## The decomposition functions `modf` and `frexp` (§4.4)

Modelled from the spec: these split a value into two parts and
"propagate full derivative only through the fractional/mantissa
component; the integral/exponent component carries zero derivative".
Python's `math.modf` truncates toward zero; `frexp` returns a mantissa
in `[1/2, 1)` (in absolute value) and an integer exponent `e` with
`x = m * 2^e`.  `frexp`'s exponent is a plain Python int; it is embedded
here as a component whose derivative is identically zero. -/

/-- The integral part of `modf`, truncated toward zero as in Python. -/
def truncQ (q : ℚ) : ℤ := if 0 ≤ q then ⌊q⌋ else ⌈q⌉

/-- The fractional part of `modf`. -/
def fracQ (q : ℚ) : ℚ := q - truncQ q

/-- The exponent returned by `frexp`: the unique `e` with
`2^(e-1) ≤ |q| < 2^e` for `q ≠ 0`, and 0 for `q = 0`. -/
def frexpExp (q : ℚ) : ℤ := if q = 0 then 0 else Int.log 2 |q| + 1

/-- The mantissa returned by `frexp`: `q / 2^e`. -/
def frexpMant (q : ℚ) : ℚ := q / 2 ^ frexpExp q

/-- Modelled from the spec: forward-mode `modf` — the fractional component
receives the full input derivative, the integral component carries zero
derivative (§4.4). -/
def modfF (x : FReal) : FReal × FReal :=
  (⟨fracQ x.val, x.der⟩, ⟨(truncQ x.val : ℚ), 0⟩)

/-- Modelled from the spec: forward-mode `frexp` — since `x = m * 2^e`
with `e` locally constant, the mantissa derivative is the input
derivative divided by `2^e`; the exponent component carries zero
derivative (§4.4). -/
def frexpF (x : FReal) : FReal × FReal :=
  (⟨frexpMant x.val, x.der / 2 ^ frexpExp x.val⟩, ⟨(frexpExp x.val : ℚ), 0⟩)

/-- Modelled from the spec: adjoint-mode `modf` on an active tape —
records the fractional component with local partial 1 and the integral
component with local partial 0 (§4.2, §4.4). -/
def Tape.modfA (t : Tape ℚ) (x : AReal ℚ) : Tape ℚ × AReal ℚ × AReal ℚ :=
  match x.slot with
  | some s =>
      let r1 := t.recordUnary s 1 (fracQ x.val)
      let r2 := r1.1.recordUnary s 0 ((truncQ x.val : ℚ))
      (r2.1, r1.2, r2.2)
  | none => (t, ⟨fracQ x.val, none⟩, ⟨(truncQ x.val : ℚ), none⟩)

/-- Modelled from the spec: adjoint-mode `frexp` on an active tape —
records the mantissa component with local partial `1 / 2^e` and the
exponent component with local partial 0 (§4.2, §4.4). -/
def Tape.frexpA (t : Tape ℚ) (x : AReal ℚ) : Tape ℚ × AReal ℚ × AReal ℚ :=
  match x.slot with
  | some s =>
      let r1 := t.recordUnary s (1 / 2 ^ frexpExp x.val) (frexpMant x.val)
      let r2 := r1.1.recordUnary s 0 ((frexpExp x.val : ℚ))
      (r2.1, r1.2, r2.2)
  | none => (t, ⟨frexpMant x.val, none⟩, ⟨(frexpExp x.val : ℚ), none⟩)

/-- The adjoint-mode `modf` scenario of the tests: register an input of
value `v`, start a recording, apply `modf`, register one of the two
output components (the fractional one when `seedFrac`, else the integral
one), seed its derivative with 1.0, run `computeAdjoints()` and read the
input derivative. -/
def modfAdjRun (v : ℚ) (seedFrac : Bool) : Except XadErr ℚ := do
  let (t1, x) := (Tape.empty (α := ℚ)).registerInput ⟨v, none⟩
  let t2 := t1.newRecording
  let (t3, yf, yi) := t2.modfA x
  let y := if seedFrac then yf else yi
  let t4 := t3.registerOutput y
  let t5 ← t4.setDerivVar y 1
  let t6 := t5.computeAdjoints
  t6.derivVar x

/-- The adjoint-mode `frexp` scenario, analogous to `modfAdjRun`. -/
def frexpAdjRun (v : ℚ) (seedMant : Bool) : Except XadErr ℚ := do
  let (t1, x) := (Tape.empty (α := ℚ)).registerInput ⟨v, none⟩
  let t2 := t1.newRecording
  let (t3, ym, ye) := t2.frexpA x
  let y := if seedMant then ym else ye
  let t4 := t3.registerOutput y
  let t5 ← t4.setDerivVar y 1
  let t6 := t5.computeAdjoints
  t6.derivVar x

/-- C4: Calling `activate()` while some tape is already the active tape for
the thread raises `TapeAlreadyActive`, regardless of whether the
already-active tape is the tape being activated or a different instance. -/
theorem c4_activate_already_active (cur tid : ℕ) :
    activateTape (some cur) tid = .error .tapeAlreadyActive := rfl

/-- C5: Calling `setDerivative` on an unregistered adjoint variable while
the thread has no active tape raises `NoTapeException`. -/
theorem c5_set_derivative_no_tape (v d : ℚ) :
    varSetDeriv none ⟨v, none⟩ d = .error .noTape := rfl

/-- C8: `modf` and `frexp` propagate the full input derivative only
through their fractional/mantissa component: with input seed 1.0 the
first component of `modf(x)` has derivative 1 and the mantissa component
of `frexp(x)` has derivative `1/2^e` where `e` is the returned exponent,
while the integral/exponent component carries zero derivative — in
forward mode (component derivatives) and in adjoint mode (seeding a
component with 1.0 and running `computeAdjoints`). -/
theorem c8_modf_frexp_derivatives (v : ℚ) :
    (modfF ⟨v, 1⟩).1.der = 1 ∧ (modfF ⟨v, 1⟩).2.der = 0 ∧
    (frexpF ⟨v, 1⟩).1.der = 1 / 2 ^ frexpExp v ∧ (frexpF ⟨v, 1⟩).2.der = 0 ∧
    modfAdjRun v true = .ok 1 ∧ modfAdjRun v false = .ok 0 ∧
    frexpAdjRun v true = .ok (1 / 2 ^ frexpExp v) ∧ frexpAdjRun v false = .ok 0 := by
  refine ⟨rfl, rfl, rfl, rfl, ?_, ?_, ?_, ?_⟩ <;>
    norm_num [modfAdjRun, frexpAdjRun, Tape.empty, Tape.registerInput, Tape.newRecording,
      Tape.modfA, Tape.frexpA, Tape.recordUnary, Tape.registerOutput, Tape.setDerivVar,
      Tape.setDerivSlot, Tape.computeAdjoints, Tape.computeAdjointsTo, Tape.propagate,
      Tape.dget, Tape.derivVar, Tape.derivSlot,
      Except.bind, Except.map, bind, Functor.map, pure, Except.pure,
      List.range_succ, List.range_zero]

/-- C6: the free function `value` returns `x.getValue()` for adjoint-mode
and forward-mode `Real` inputs, and is the identity on every other input,
including non-numeric values such as strings. -/
theorem c6_value_function :
    (∀ x, valueFn (.adjR x) = .pyFloat x.val) ∧
    (∀ x, valueFn (.fwdR x) = .pyFloat x.val) ∧
    (∀ q, valueFn (.pyFloat q) = .pyFloat q) ∧
    (∀ n, valueFn (.pyInt n) = .pyInt n) ∧
    (∀ s, valueFn (.pyStr s) = .pyStr s) :=
  ⟨fun _ => rfl, fun _ => rfl, fun _ => rfl, fun _ => rfl, fun _ => rfl⟩

/-- C7: the free function `derivative` returns `x.getDerivative()` for
adjoint-mode and forward-mode `Real` inputs (for an adjoint variable this
delegates to the active tape), and raises `TypeError` for every input
that is not an AD active type, such as a plain float, int or string. -/
theorem c7_derivative_function :
    (∀ ctx x, derivativeFn ctx (.adjR x) = (varGetDeriv ctx x).mapError .xadErr) ∧
    (∀ ctx x, derivativeFn ctx (.fwdR x) = .ok x.der) ∧
    (∀ ctx q, derivativeFn ctx (.pyFloat q) = .error .typeErr) ∧
    (∀ ctx n, derivativeFn ctx (.pyInt n) = .error .typeErr) ∧
    (∀ ctx s, derivativeFn ctx (.pyStr s) = .error .typeErr) :=
  ⟨fun _ _ => rfl, fun _ _ => rfl, fun _ _ => rfl, fun _ _ => rfl, fun _ _ => rfl⟩

/-- Auxiliary: the `registerInputs` loop with an arbitrary accumulated
list of already-processed variables. -/
theorem registerInputsLoop_aux {α : Type} [CommRing α] (xs : List (AReal α)) :
    ∀ (t : Tape α) (acc : List (AReal α)),
      xs.foldl (fun acc x =>
        let r := acc.1.registerInput x
        (r.1, acc.2 ++ [r.2])) (t, acc) =
      ((registerInputSeq t xs).1, acc ++ (registerInputSeq t xs).2) := by
  induction xs with
  | nil => intro t acc; simp [registerInputSeq]
  | cons x xs ih =>
    intro t acc
    simp only [List.foldl_cons, registerInputSeq, ih]
    simp

/-- Auxiliary: the `registerOutputs` loop equals the sequential calls. -/
theorem registerOutputsLoop_aux {α : Type} [CommRing α] (xs : List (AReal α)) :
    ∀ t : Tape α, Tape.registerOutputsLoop t xs = registerOutputSeq t xs := by
  induction xs with
  | nil => intro t; rfl
  | cons x xs ih =>
    intro t
    simp only [Tape.registerOutputsLoop, List.foldl_cons, registerOutputSeq]
    exact ih _

/-- C9: `registerInputs(vs)` has exactly the same effect as calling
`registerInput(v)` for each `v` in `vs` in sequence order, and
`registerOutputs(vs)` has exactly the same effect as calling
`registerOutput(v)` for each `v` in order. -/
theorem c9_register_loops_sequence :
    (∀ (t : Tape ℚ) (xs : List (AReal ℚ)),
      t.registerInputsLoop xs = registerInputSeq t xs) ∧
    (∀ (t : Tape ℚ) (xs : List (AReal ℚ)),
      t.registerOutputsLoop xs = registerOutputSeq t xs) := by
  constructor
  · intro t xs
    simpa [Tape.registerInputsLoop] using registerInputsLoop_aux xs t []
  · intro t xs
    exact registerOutputsLoop_aux xs t

/-- C10: `hash(x)` equals `hash(float(x.value))` for both AD variable
kinds; two AD variables with equal underlying values hash equal regardless
of slot (adjoint mode) or derivative (forward mode); and an AD variable
hashes equal to the plain float of the same value (whatever hash function
Python applies to floats). -/
theorem c10_hash_value_only (h : ℚ → ℤ) :
    (∀ x : AReal ℚ, hashAdj h x = h x.val) ∧
    (∀ x : FReal, hashFwd h x = h x.val) ∧
    (∀ x y : AReal ℚ, x.val = y.val → hashAdj h x = hashAdj h y) ∧
    (∀ x y : FReal, x.val = y.val → hashFwd h x = hashFwd h y) :=
  ⟨fun _ => rfl, fun _ => rfl,
   fun _ _ hv => congrArg h hv, fun _ _ hv => congrArg h hv⟩

/-- Witness for C10 at a concrete hash function and concrete variables:
an adjoint variable with slot 3 and one unregistered, both of value 2,
hash equal; a forward variable of value 2 with derivative 5 hashes like
the plain float 2. -/
theorem c10_hash_value_only_witness :
    hashAdj (fun q => q.num) ⟨2, some 3⟩ = hashAdj (fun q => q.num) ⟨2, none⟩ ∧
    hashFwd (fun q => q.num) ⟨2, 5⟩ = (fun q : ℚ => q.num) 2 :=
  ⟨(c10_hash_value_only (fun q => q.num)).2.2.1 ⟨2, some 3⟩ ⟨2, none⟩ rfl,
   (c10_hash_value_only (fun q => q.num)).2.1 ⟨2, 5⟩⟩

/-!
## The elementary-function derivative table (§4.4) — claim C3

Modelled from the spec: the table of unary math primitives lives in the
C++ core; each entry supplies a value formula and a partial-derivative
formula "used identically by both the forward propagator (§4.1) and the
tape-entry local-partial computation (§4.2)".  The derivative formulas
below are the closed forms stated by the repository's tests
(`test_math_functions_derivatives.py`).  Values are modelled over `ℝ`
(exact real arithmetic in place of IEEE-754 doubles, so "within
floating-point tolerance" becomes exact equality), and each entry's
`dom` is the set of inputs on which the derivative formula applies. -/

/-- One entry of the unary elementary-function table (§4.4): value
formula, partial-derivative formula, and the domain of validity. -/
structure UnaryFn where
  val : ℝ → ℝ
  der : ℝ → ℝ
  dom : Set ℝ

/-- Modelled from the spec (§4.1): one step of the forward dual-number
propagator — value and single-pass chain rule `dy = f'(x) * dx`. -/
noncomputable def fwdEvalR (f : UnaryFn) (p : ℝ × ℝ) : ℝ × ℝ :=
  (f.val p.1, f.der p.1 * p.2)

/-- The forward-mode derivative of `f` at `x` with input seed `dx`. -/
noncomputable def fwdDerivR (f : UnaryFn) (x dx : ℝ) : ℝ :=
  (fwdEvalR f (x, dx)).2

/-- Modelled from the spec (§4.2): the adjoint-mode derivative of `f` at
`x` with output seed `w`, computed through the tape machinery — register
the input, start a recording, record `y = f(x)` with its local partial,
register `y` as output, seed it with `w`, run the reverse pass and read
the input slot's adjoint. -/
noncomputable def adjDerivR (f : UnaryFn) (x w : ℝ) : ℝ :=
  let r1 := (Tape.empty (α := ℝ)).registerInput ⟨x, none⟩
  let t2 := r1.1.newRecording
  let r3 := match r1.2.slot with
    | some s => t2.recordUnary s (f.der x) (f.val x)
    | none => (t2, ⟨f.val x, none⟩)
  let t4 := r3.1.registerOutput r3.2
  match t4.setDerivVar r3.2 w with
  | .ok t5 =>
    match t5.computeAdjoints.derivVar r1.2 with
    | .ok d => d
    | .error _ => 0
  | .error _ => 0

/-- The forward-mode derivative is the table's partial times the seed. -/
theorem fwdDerivR_eq (f : UnaryFn) (x dx : ℝ) :
    fwdDerivR f x dx = f.der x * dx := rfl

/-- Running the tape reverse pass on the one-operation recording of
`y = f(x)` accumulates exactly `localPartial * seed` into the input
slot. -/
theorem adjDerivR_eq (f : UnaryFn) (x w : ℝ) :
    adjDerivR f x w = f.der x * w := by
  norm_num [adjDerivR, Tape.empty, Tape.registerInput, Tape.newRecording,
    Tape.recordUnary, Tape.registerOutput, Tape.setDerivVar, Tape.setDerivSlot,
    Tape.computeAdjoints, Tape.computeAdjointsTo, Tape.propagate, Tape.dget,
    Tape.derivVar, Tape.derivSlot, List.range_succ, List.range_zero]

/-- `atanh`, via its logarithmic closed form
`atanh x = (log (1+x) - log (1-x)) / 2`. -/
noncomputable def artanhR (x : ℝ) : ℝ := (Real.log (1 + x) - Real.log (1 - x)) / 2

/-- `acosh`, via its logarithmic closed form
`acosh x = log (x + sqrt (x² - 1))`. -/
noncomputable def arcoshR (x : ℝ) : ℝ := Real.log (x + Real.sqrt (x ^ 2 - 1))

/-- The error function `erf x = (2/√π) ∫₀ˣ exp(-t²) dt`. -/
noncomputable def erfR (x : ℝ) : ℝ :=
  (2 / Real.sqrt Real.pi) * ∫ t in (0:ℝ)..x, Real.exp (-(t ^ 2))

/-- Truncation toward zero, as in `math.trunc`. -/
noncomputable def truncR (x : ℝ) : ℝ := if 0 ≤ x then (⌊x⌋ : ℝ) else (⌈x⌉ : ℝ)

/-- `sin`: derivative `cos x`. -/
noncomputable def sinU : UnaryFn := ⟨Real.sin, Real.cos, Set.univ⟩

/-- `cos`: derivative `-sin x`. -/
noncomputable def cosU : UnaryFn := ⟨Real.cos, fun x => -Real.sin x, Set.univ⟩

/-- `tan`: derivative `2 / (1 + cos 2x)` (the closed form used by the
tests), valid where `cos x ≠ 0`. -/
noncomputable def tanU : UnaryFn :=
  ⟨Real.tan, fun x => 2 / (1 + Real.cos (2 * x)), {x | Real.cos x ≠ 0}⟩

/-- `atan`: derivative `1 / (1 + x²)`. -/
noncomputable def atanU : UnaryFn := ⟨Real.arctan, fun x => 1 / (1 + x ^ 2), Set.univ⟩

/-- `acos`: derivative `-1 / √(1 - x²)` on `(-1, 1)`. -/
noncomputable def acosU : UnaryFn :=
  ⟨Real.arccos, fun x => -1 / Real.sqrt (1 - x ^ 2), {x | -1 < x ∧ x < 1}⟩

/-- `asin`: derivative `1 / √(1 - x²)` on `(-1, 1)`. -/
noncomputable def asinU : UnaryFn :=
  ⟨Real.arcsin, fun x => 1 / Real.sqrt (1 - x ^ 2), {x | -1 < x ∧ x < 1}⟩

/-- `tanh`: derivative `1 - tanh² x`. -/
noncomputable def tanhU : UnaryFn := ⟨Real.tanh, fun x => 1 - Real.tanh x ^ 2, Set.univ⟩

/-- `cosh`: derivative `sinh x`. -/
noncomputable def coshU : UnaryFn := ⟨Real.cosh, Real.sinh, Set.univ⟩

/-- `sinh`: derivative `cosh x`. -/
noncomputable def sinhU : UnaryFn := ⟨Real.sinh, Real.cosh, Set.univ⟩

/-- `atanh`: derivative `1 / (1 - x²)` on `(-1, 1)`. -/
noncomputable def atanhU : UnaryFn :=
  ⟨artanhR, fun x => 1 / (1 - x ^ 2), {x | -1 < x ∧ x < 1}⟩

/-- `asinh`: derivative `1 / √(1 + x²)`. -/
noncomputable def asinhU : UnaryFn :=
  ⟨Real.arsinh, fun x => 1 / Real.sqrt (1 + x ^ 2), Set.univ⟩

/-- `acosh`: derivative `1 / √(x² - 1)` for `x > 1`. -/
noncomputable def acoshU : UnaryFn :=
  ⟨arcoshR, fun x => 1 / Real.sqrt (x ^ 2 - 1), {x | 1 < x}⟩

/-- `sqrt`: derivative `1 / (2√x)` for `x > 0`. -/
noncomputable def sqrtU : UnaryFn :=
  ⟨Real.sqrt, fun x => 1 / (2 * Real.sqrt x), {x | 0 < x}⟩

/-- `log10`: value `log x / log 10`, derivative `1 / (x log 10)` for
`x > 0`. -/
noncomputable def log10U : UnaryFn :=
  ⟨fun x => Real.log x / Real.log 10, fun x => 1 / (x * Real.log 10), {x | 0 < x}⟩

/-- `log`: derivative `1 / x` for `x > 0`. -/
noncomputable def logU : UnaryFn := ⟨Real.log, fun x => 1 / x, {x | 0 < x}⟩

/-- `exp`: derivative `exp x`. -/
noncomputable def expU : UnaryFn := ⟨Real.exp, Real.exp, Set.univ⟩

/-- `expm1`: value `exp x - 1`, derivative `exp x`. -/
noncomputable def expm1U : UnaryFn := ⟨fun x => Real.exp x - 1, Real.exp, Set.univ⟩

/-- `log1p`: value `log (1 + x)`, derivative `1 / (1 + x)` for
`x > -1`. -/
noncomputable def log1pU : UnaryFn :=
  ⟨fun x => Real.log (1 + x), fun x => 1 / (1 + x), {x | -1 < x}⟩

/-- `log2`: value `log x / log 2`, derivative `1 / (x log 2)` for
`x > 0`. -/
noncomputable def log2U : UnaryFn :=
  ⟨fun x => Real.log x / Real.log 2, fun x => 1 / (x * Real.log 2), {x | 0 < x}⟩

/-- `abs` and `fabs` (one shared entry): derivative `-1` for `x < 0`
and `1` for `x > 0` (the branch selected at the point of evaluation),
valid for `x ≠ 0`. -/
noncomputable def absU : UnaryFn :=
  ⟨fun x => |x|, fun x => if x < 0 then -1 else 1, {x | x ≠ 0}⟩

/-- `cbrt`: value `x^(1/3)`, derivative `(1/3) x^(1/3 - 1)` for
`x > 0`. -/
noncomputable def cbrtU : UnaryFn :=
  ⟨fun x => x ^ ((1 : ℝ) / 3), fun x => (1 / 3) * x ^ ((1 : ℝ) / 3 - 1), {x | 0 < x}⟩

/-- `erf`: derivative `(2/√π) exp(-x²)`. -/
noncomputable def erfU : UnaryFn :=
  ⟨erfR, fun x => 2 / Real.sqrt Real.pi * Real.exp (-(x ^ 2)), Set.univ⟩

/-- `erfc`: value `1 - erf x`, derivative `-(2/√π) exp(-x²)`. -/
noncomputable def erfcU : UnaryFn :=
  ⟨fun x => 1 - erfR x, fun x => -(2 / Real.sqrt Real.pi * Real.exp (-(x ^ 2))), Set.univ⟩

/-- `floor`: derivative 0 away from the integers (zero almost
everywhere, §4.4). -/
noncomputable def floorU : UnaryFn :=
  ⟨fun x => (⌊x⌋ : ℝ), fun _ => 0, {x | ¬∃ n : ℤ, (n : ℝ) = x}⟩

/-- `ceil`: derivative 0 away from the integers. -/
noncomputable def ceilU : UnaryFn :=
  ⟨fun x => (⌈x⌉ : ℝ), fun _ => 0, {x | ¬∃ n : ℤ, (n : ℝ) = x}⟩

/-- `trunc`: derivative 0 away from the integers. -/
noncomputable def truncU : UnaryFn :=
  ⟨truncR, fun _ => 0, {x | ¬∃ n : ℤ, (n : ℝ) = x}⟩

/-- The unary elementary-function derivative table (§4.4), with the
closed-form derivative formulas stated by the repository's tests.  The
smoothed variants (`smooth_abs`, …) are not included: the spec fixes no
concrete approximation formula for them. -/
noncomputable def unaryTable : List UnaryFn :=
  [sinU, cosU, tanU, atanU, acosU, asinU, tanhU, coshU, sinhU, atanhU,
   asinhU, acoshU, sqrtU, log10U, logU, expU, expm1U, log1pU, log2U,
   absU, cbrtU, erfU, erfcU, floorU, ceilU, truncU]

/-!
### The table's partial-derivative formulas equal the mathematical derivatives

One lemma per table entry: on the entry's domain, the recorded partial
`der x` is the derivative of the value formula. -/

theorem deriv_sinU (x : ℝ) : deriv sinU.val x = sinU.der x :=
  (Real.hasDerivAt_sin x).deriv

theorem deriv_cosU (x : ℝ) : deriv cosU.val x = cosU.der x :=
  (Real.hasDerivAt_cos x).deriv

theorem deriv_tanU {x : ℝ} (hx : Real.cos x ≠ 0) : deriv tanU.val x = tanU.der x := by
  show deriv Real.tan x = 2 / (1 + Real.cos (2 * x))
  rw [(Real.hasDerivAt_tan hx).deriv, Real.cos_two_mul]
  have h2 : Real.cos x ^ 2 ≠ 0 := pow_ne_zero 2 hx
  field_simp

theorem deriv_atanU (x : ℝ) : deriv atanU.val x = atanU.der x :=
  (Real.hasDerivAt_arctan x).deriv

theorem deriv_acosU {x : ℝ} (hx : -1 < x ∧ x < 1) : deriv acosU.val x = acosU.der x := by
  show deriv Real.arccos x = -1 / Real.sqrt (1 - x ^ 2)
  rw [(Real.hasDerivAt_arccos (ne_of_gt hx.1) (ne_of_lt hx.2)).deriv]
  ring

theorem deriv_asinU {x : ℝ} (hx : -1 < x ∧ x < 1) : deriv asinU.val x = asinU.der x := by
  show deriv Real.arcsin x = 1 / Real.sqrt (1 - x ^ 2)
  rw [(Real.hasDerivAt_arcsin (ne_of_gt hx.1) (ne_of_lt hx.2)).deriv]

/-- `tanh` has derivative `1 - tanh²`, via the quotient rule on
`sinh/cosh` and the identity `cosh² - sinh² = 1`. -/
theorem hasDerivAt_tanhR (x : ℝ) : HasDerivAt Real.tanh (1 - Real.tanh x ^ 2) x := by
  have hc : Real.cosh x ≠ 0 := ne_of_gt (Real.cosh_pos x)
  have h := (Real.hasDerivAt_sinh x).div (Real.hasDerivAt_cosh x) hc
  have hfun : (fun y => Real.sinh y / Real.cosh y) = Real.tanh := by
    funext y; rw [Real.tanh_eq_sinh_div_cosh]
  rw [hfun] at h
  convert h using 1
  rw [Real.tanh_eq_sinh_div_cosh]
  field_simp
  nlinarith [Real.cosh_sq_sub_sinh_sq x]

theorem deriv_tanhU (x : ℝ) : deriv tanhU.val x = tanhU.der x :=
  (hasDerivAt_tanhR x).deriv

theorem deriv_coshU (x : ℝ) : deriv coshU.val x = coshU.der x :=
  (Real.hasDerivAt_cosh x).deriv

theorem deriv_sinhU (x : ℝ) : deriv sinhU.val x = sinhU.der x :=
  (Real.hasDerivAt_sinh x).deriv

/-- `atanh` has derivative `1/(1 - x²)` on `(-1, 1)`. -/
theorem hasDerivAt_artanhR {x : ℝ} (h1 : -1 < x) (h2 : x < 1) :
    HasDerivAt artanhR (1 / (1 - x ^ 2)) x := by
  have ha : (1 : ℝ) + x ≠ 0 := by linarith
  have hb : (1 : ℝ) - x ≠ 0 := by linarith
  have hab : (1 : ℝ) - x ^ 2 ≠ 0 := by nlinarith
  have d1 : HasDerivAt (fun y : ℝ => Real.log (1 + y)) (1 / (1 + x)) x := by
    have := ((hasDerivAt_id x).const_add 1).log ha
    simpa [one_div] using this
  have d2 : HasDerivAt (fun y : ℝ => Real.log (1 - y)) (-1 / (1 - x)) x := by
    have := ((hasDerivAt_id x).const_sub 1).log hb
    simpa [neg_div] using this
  have hh : HasDerivAt artanhR ((1 / (1 + x) - -1 / (1 - x)) / 2) x :=
    (d1.sub d2).div_const 2
  convert hh using 1
  field_simp [hab]
  ring

theorem deriv_atanhU {x : ℝ} (hx : -1 < x ∧ x < 1) : deriv atanhU.val x = atanhU.der x :=
  (hasDerivAt_artanhR hx.1 hx.2).deriv

theorem deriv_asinhU (x : ℝ) : deriv asinhU.val x = asinhU.der x := by
  show deriv Real.arsinh x = 1 / Real.sqrt (1 + x ^ 2)
  rw [(Real.hasDerivAt_arsinh x).deriv, one_div]

/-- `acosh` has derivative `1/√(x² - 1)` for `x > 1`. -/
theorem hasDerivAt_arcoshR {x : ℝ} (hx : 1 < x) :
    HasDerivAt arcoshR (1 / Real.sqrt (x ^ 2 - 1)) x := by
  have hs2 : (0 : ℝ) < x ^ 2 - 1 := by nlinarith
  have hs : 0 < Real.sqrt (x ^ 2 - 1) := Real.sqrt_pos.mpr hs2
  have hss : Real.sqrt (x ^ 2 - 1) ^ 2 = x ^ 2 - 1 := Real.sq_sqrt (le_of_lt hs2)
  have hinner : HasDerivAt (fun y : ℝ => y ^ 2 - 1) (2 * x) x := by
    simpa using (hasDerivAt_pow 2 x).sub_const 1
  have hsq := hinner.sqrt (ne_of_gt hs2)
  have hsum := (hasDerivAt_id x).add hsq
  have hpos : 0 < x + Real.sqrt (x ^ 2 - 1) := by positivity
  have harc : HasDerivAt arcoshR
      ((1 + 2 * x / (2 * Real.sqrt (x ^ 2 - 1))) / (x + Real.sqrt (x ^ 2 - 1))) x :=
    hsum.log (ne_of_gt hpos)
  convert harc using 1
  rw [div_eq_div_iff (ne_of_gt hs) (ne_of_gt hpos)]
  field_simp
  nlinarith [hss, hs]

theorem deriv_acoshU {x : ℝ} (hx : 1 < x) : deriv acoshU.val x = acoshU.der x :=
  (hasDerivAt_arcoshR hx).deriv

theorem deriv_sqrtU {x : ℝ} (hx : 0 < x) : deriv sqrtU.val x = sqrtU.der x :=
  (Real.hasDerivAt_sqrt (ne_of_gt hx)).deriv

theorem deriv_log10U {x : ℝ} (hx : 0 < x) : deriv log10U.val x = log10U.der x := by
  have h := ((Real.hasDerivAt_log (ne_of_gt hx)).div_const (Real.log 10)).deriv
  show deriv (fun y => Real.log y / Real.log 10) x = 1 / (x * Real.log 10)
  rw [h, div_eq_mul_inv, one_div, mul_inv, inv_eq_one_div, one_div]

theorem deriv_logU {x : ℝ} (hx : 0 < x) : deriv logU.val x = logU.der x := by
  show deriv Real.log x = 1 / x
  rw [(Real.hasDerivAt_log (ne_of_gt hx)).deriv, one_div]

theorem deriv_expU (x : ℝ) : deriv expU.val x = expU.der x :=
  (Real.hasDerivAt_exp x).deriv

theorem deriv_expm1U (x : ℝ) : deriv expm1U.val x = expm1U.der x :=
  ((Real.hasDerivAt_exp x).sub_const 1).deriv

theorem deriv_log1pU {x : ℝ} (hx : -1 < x) : deriv log1pU.val x = log1pU.der x := by
  show deriv (fun y => Real.log (1 + y)) x = 1 / (1 + x)
  have ha : (1 : ℝ) + x ≠ 0 := by linarith
  have h := (((hasDerivAt_id x).const_add 1).log ha).deriv
  simp only [one_div]
  simpa using h

theorem deriv_log2U {x : ℝ} (hx : 0 < x) : deriv log2U.val x = log2U.der x := by
  have h := ((Real.hasDerivAt_log (ne_of_gt hx)).div_const (Real.log 2)).deriv
  show deriv (fun y => Real.log y / Real.log 2) x = 1 / (x * Real.log 2)
  rw [h, div_eq_mul_inv, one_div, mul_inv, inv_eq_one_div, one_div]

theorem deriv_absU {x : ℝ} (hx : x ≠ 0) : deriv absU.val x = absU.der x := by
  show deriv (fun y : ℝ => |y|) x = if x < 0 then -1 else 1
  rcases lt_or_gt_of_ne hx with h | h
  · rw [if_pos h]
    have hev : (fun y : ℝ => |y|) =ᶠ[nhds x] fun y => -y := by
      filter_upwards [Iio_mem_nhds h] with y hy
      exact abs_of_neg hy
    rw [hev.deriv_eq]
    exact ((hasDerivAt_id x).neg).deriv
  · rw [if_neg (not_lt.mpr (le_of_lt h))]
    have hev : (fun y : ℝ => |y|) =ᶠ[nhds x] fun y => y := by
      filter_upwards [Ioi_mem_nhds h] with y hy
      exact abs_of_pos hy
    rw [hev.deriv_eq]
    exact deriv_id x

theorem deriv_cbrtU {x : ℝ} (hx : 0 < x) : deriv cbrtU.val x = cbrtU.der x :=
  (Real.hasDerivAt_rpow_const (p := (1 : ℝ) / 3) (Or.inl (ne_of_gt hx))).deriv

/-- `erf` has derivative `(2/√π) exp(-x²)`, by the fundamental theorem
of calculus applied to its integral representation. -/
theorem hasDerivAt_erfR (x : ℝ) :
    HasDerivAt erfR (2 / Real.sqrt Real.pi * Real.exp (-(x ^ 2))) x := by
  have hc : Continuous fun t : ℝ => Real.exp (-(t ^ 2)) := by continuity
  have h1 : HasDerivAt (fun u : ℝ => ∫ t in (0:ℝ)..u, Real.exp (-(t ^ 2)))
      (Real.exp (-(x ^ 2))) x := (hc.integral_hasStrictDerivAt 0 x).hasDerivAt
  exact h1.const_mul (2 / Real.sqrt Real.pi)

theorem deriv_erfU (x : ℝ) : deriv erfU.val x = erfU.der x :=
  (hasDerivAt_erfR x).deriv

theorem deriv_erfcU (x : ℝ) : deriv erfcU.val x = erfcU.der x :=
  ((hasDerivAt_erfR x).const_sub 1).deriv

theorem deriv_floorU {x : ℝ} (hx : ¬∃ n : ℤ, (n : ℝ) = x) :
    deriv floorU.val x = floorU.der x := by
  show deriv (fun y : ℝ => (⌊y⌋ : ℝ)) x = 0
  have h1 : (⌊x⌋ : ℝ) < x := by
    rcases lt_or_eq_of_le (Int.floor_le x) with h | h
    · exact h
    · exact absurd ⟨⌊x⌋, h⟩ hx
  have h2 : x < (⌊x⌋ : ℝ) + 1 := Int.lt_floor_add_one x
  have hev : (fun y : ℝ => (⌊y⌋ : ℝ)) =ᶠ[nhds x] fun _ => (⌊x⌋ : ℝ) := by
    filter_upwards [Ioo_mem_nhds h1 h2] with y hy
    have : ⌊y⌋ = ⌊x⌋ := by
      rw [Int.floor_eq_iff]
      exact ⟨le_of_lt hy.1, by exact_mod_cast hy.2⟩
    rw [this]
  rw [hev.deriv_eq]
  exact deriv_const x _

theorem deriv_ceilU {x : ℝ} (hx : ¬∃ n : ℤ, (n : ℝ) = x) :
    deriv ceilU.val x = ceilU.der x := by
  show deriv (fun y : ℝ => (⌈y⌉ : ℝ)) x = 0
  have h2 : x < (⌈x⌉ : ℝ) := by
    rcases lt_or_eq_of_le (Int.le_ceil x) with h | h
    · exact h
    · exact absurd ⟨⌈x⌉, h.symm⟩ hx
  have h1 : (⌈x⌉ : ℝ) - 1 < x := by
    have := Int.ceil_lt_add_one x
    linarith
  have hev : (fun y : ℝ => (⌈y⌉ : ℝ)) =ᶠ[nhds x] fun _ => (⌈x⌉ : ℝ) := by
    filter_upwards [Ioo_mem_nhds h1 h2] with y hy
    have : ⌈y⌉ = ⌈x⌉ := by
      rw [Int.ceil_eq_iff]
      exact ⟨by exact_mod_cast hy.1, le_of_lt hy.2⟩
    rw [this]
  rw [hev.deriv_eq]
  exact deriv_const x _

theorem deriv_truncU {x : ℝ} (hx : ¬∃ n : ℤ, (n : ℝ) = x) :
    deriv truncU.val x = truncU.der x := by
  show deriv truncR x = 0
  have hx0 : x ≠ 0 := by
    intro h
    exact hx ⟨0, by rw [h]; norm_num⟩
  rcases lt_or_gt_of_ne hx0 with hneg | hpos
  · have h2 : x < (⌈x⌉ : ℝ) := by
      rcases lt_or_eq_of_le (Int.le_ceil x) with h | h
      · exact h
      · exact absurd ⟨⌈x⌉, h.symm⟩ hx
    have h1 : (⌈x⌉ : ℝ) - 1 < x := by
      have := Int.ceil_lt_add_one x
      linarith
    have hcle : (⌈x⌉ : ℝ) ≤ 0 := by
      have : ⌈x⌉ ≤ 0 := Int.ceil_le.mpr (by exact_mod_cast le_of_lt hneg)
      exact_mod_cast this
    have hev : truncR =ᶠ[nhds x] fun _ => (⌈x⌉ : ℝ) := by
      filter_upwards [Ioo_mem_nhds h1 h2] with y hy
      have hyneg : ¬0 ≤ y := by
        push_neg
        exact lt_of_lt_of_le hy.2 hcle
      have hceq : ⌈y⌉ = ⌈x⌉ := by
        rw [Int.ceil_eq_iff]
        exact ⟨by exact_mod_cast hy.1, le_of_lt hy.2⟩
      rw [truncR, if_neg hyneg, hceq]
    rw [hev.deriv_eq]
    exact deriv_const x _
  · have h1 : (⌊x⌋ : ℝ) < x := by
      rcases lt_or_eq_of_le (Int.floor_le x) with h | h
      · exact h
      · exact absurd ⟨⌊x⌋, h⟩ hx
    have h2 : x < (⌊x⌋ : ℝ) + 1 := Int.lt_floor_add_one x
    have hfle : (0 : ℝ) ≤ (⌊x⌋ : ℝ) := by
      have : 0 ≤ ⌊x⌋ := Int.floor_nonneg.mpr (le_of_lt hpos)
      exact_mod_cast this
    have hev : truncR =ᶠ[nhds x] fun _ => (⌊x⌋ : ℝ) := by
      filter_upwards [Ioo_mem_nhds h1 h2] with y hy
      have hynn : 0 ≤ y := le_of_lt (lt_of_le_of_lt hfle hy.1)
      have hfeq : ⌊y⌋ = ⌊x⌋ := by
        rw [Int.floor_eq_iff]
        exact ⟨le_of_lt hy.1, by exact_mod_cast hy.2⟩
      rw [truncR, if_pos hynn, hfeq]
    rw [hev.deriv_eq]
    exact deriv_const x _

/-- C3: for every function in the unary elementary-function derivative
table and every input in the function's domain, the forward-mode
derivative with input seed 1.0 equals the adjoint-mode derivative with
output seed 1.0 (computed through the tape reverse pass), and both equal
the closed-form mathematical derivative of the value function (exactly,
since the model computes over ℝ). -/
theorem c3_elementary_function_derivatives (f : UnaryFn) (hf : f ∈ unaryTable)
    (x : ℝ) (hx : x ∈ f.dom) :
    fwdDerivR f x 1 = adjDerivR f x 1 ∧ fwdDerivR f x 1 = deriv f.val x := by
  refine ⟨by rw [fwdDerivR_eq, adjDerivR_eq], ?_⟩
  rw [fwdDerivR_eq, mul_one]
  fin_cases hf
  · exact (deriv_sinU x).symm
  · exact (deriv_cosU x).symm
  · exact (deriv_tanU hx).symm
  · exact (deriv_atanU x).symm
  · exact (deriv_acosU hx).symm
  · exact (deriv_asinU hx).symm
  · exact (deriv_tanhU x).symm
  · exact (deriv_coshU x).symm
  · exact (deriv_sinhU x).symm
  · exact (deriv_atanhU hx).symm
  · exact (deriv_asinhU x).symm
  · exact (deriv_acoshU hx).symm
  · exact (deriv_sqrtU hx).symm
  · exact (deriv_log10U hx).symm
  · exact (deriv_logU hx).symm
  · exact (deriv_expU x).symm
  · exact (deriv_expm1U x).symm
  · exact (deriv_log1pU hx).symm
  · exact (deriv_log2U hx).symm
  · exact (deriv_absU hx).symm
  · exact (deriv_cbrtU hx).symm
  · exact (deriv_erfU x).symm
  · exact (deriv_erfcU x).symm
  · exact (deriv_floorU hx).symm
  · exact (deriv_ceilU hx).symm
  · exact (deriv_truncU hx).symm

/-- Witness for C3 at the `exp` entry and `x = 0`: the entry is in the
table, 0 is in its domain, and the three derivatives coincide there. -/
theorem c3_elementary_function_derivatives_witness :
    expU ∈ unaryTable ∧ (0 : ℝ) ∈ expU.dom ∧
    (fwdDerivR expU 0 1 = adjDerivR expU 0 1 ∧
     fwdDerivR expU 0 1 = deriv expU.val 0) :=
  ⟨by simp [unaryTable], Set.mem_univ 0,
   c3_elementary_function_derivatives expU (by simp [unaryTable]) 0 (Set.mem_univ 0)⟩

end XadSpec
